import Mathlib

/-!
Verification of `sort_scans.py`: a shallow embedding in Lean 4 of the
scanned-PDF renaming pipeline (Text Extractor, Topic Inferencer, Filename
Sanitizer, Document Processor), together with theorems settling the
specification claims about it.

Python strings are modelled as `List Char`; Python `None` as `Option.none`;
exceptions as explicit failure outcomes or `Except`.
-/

set_option maxRecDepth 10000

namespace SortScans

/-- Python strings are modelled as lists of characters. -/
abbrev PyStr := List Char

/-- Coerce a Lean string literal to the `List Char` model of Python strings. -/
def strL (s : String) : PyStr := s.data

/-- Constant `MAX_FILENAME_LENGTH = 150` from `sort_scans.py`. -/
def MAX_FILENAME_LENGTH : Nat := 150

/-- Constant `MAX_OCR_TEXT_FOR_LLM = 4000` from `sort_scans.py`. -/
def MAX_OCR_TEXT_FOR_LLM : Nat := 4000

/-- Characters stripped by Python `str.strip()` with no argument
(ASCII whitespace: space, tab, newline, vertical tab, form feed,
carriage return). -/
def isPySpace (c : Char) : Bool :=
  c = ' ' || c = '\t' || c = '\n' || c = '\x0b' || c = '\x0c' || c = '\r'

/-- Python `s.strip()`: remove leading and trailing whitespace. -/
def pyStripWs (l : PyStr) : PyStr :=
  ((l.dropWhile isPySpace).reverse.dropWhile isPySpace).reverse

/-- Characters stripped by the `sanitized.strip(' _-')` call in
`convert_topic_to_filename`. -/
def isStripChar (c : Char) : Bool :=
  c = ' ' || c = '_' || c = '-'

/-- Python `s.strip(' _-')`: remove leading and trailing spaces,
underscores and hyphens. -/
def pyStrip3 (l : PyStr) : PyStr :=
  ((l.dropWhile isStripChar).reverse.dropWhile isStripChar).reverse

/-- Characters removed by the external `pathvalidate.sanitize_filename`
dependency with its defaults: ASCII control characters and the characters
`\/:*?"<>|` that are invalid in file names on the universal platform. -/
def isInvalidFilenameChar (c : Char) : Bool :=
  c.toNat < 32 || c = '\\' || c = '/' || c = ':' || c = '*' ||
    c = '?' || c = '\x22' || c = '<' || c = '>' || c = '|'

/-- Model of the external dependency `pathvalidate.sanitize_filename`
called with default arguments: every character invalid in file names on the
universal platform is removed (default replacement text is empty) and the
result is truncated to the default 255-character limit. Reserved-name
special cases (for example Windows device names) are out of scope of this
model; no claim here depends on them. -/
def sanitize_filename (l : PyStr) : PyStr :=
  (l.filter (fun c => !(isInvalidFilenameChar c))).take 255

/-- The character substitution of `sanitized.replace(' ', '_')`. -/
def spaceToUnderscore (c : Char) : Char :=
  if c = ' ' then '_' else c

/-- Embedding of `convert_topic_to_filename` from `sort_scans.py`:
`None` on falsy input, otherwise sanitize, replace spaces by underscores,
strip `' _-'` at both ends, truncate to `MAX_FILENAME_LENGTH`, and fall
back to `"Untitled"` when the result is empty. -/
def convert_topic_to_filename (topic : PyStr) : Option PyStr :=
  if topic = [] then none
  else
    let s1 := sanitize_filename topic
    let s2 := s1.map spaceToUnderscore
    let s3 := pyStrip3 s2
    let s4 := s3.take MAX_FILENAME_LENGTH
    if s4 = [] then some (strL "Untitled") else some s4

example : convert_topic_to_filename (strL "Acme Corp - Invoice Payment") =
    some (strL "Acme_Corp_-_Invoice_Payment") := by decide

example : convert_topic_to_filename (strL " -_ ") = some (strL "Untitled") := by
  decide

example : convert_topic_to_filename (strL "a/b:c") = some (strL "abc") := by
  decide

/-- Claim C4, counterexample: the claim says the Filename Sanitizer returns a
non-empty string for every input string including the empty string, but
`convert_topic_to_filename` starts with `if not topic: return None`, so on the
empty string it returns `None` (modelled as `none`), not a string at all. -/
theorem sanitizer_empty_input_returns_none :
    convert_topic_to_filename [] = none := rfl

/-- Claim C4, amended: for every non-empty input string the Filename
Sanitizer never fails and returns a non-empty string of length at most
`MAX_FILENAME_LENGTH` (150), substituting the placeholder `"Untitled"` when
the sanitized, underscored, stripped and truncated result would otherwise be
empty; the empty input instead yields the `None` signal. -/
theorem sanitizer_total_nonempty_bounded (t : PyStr) (h : t ≠ []) :
    ∃ s, convert_topic_to_filename t = some s ∧ s ≠ [] ∧
      s.length ≤ MAX_FILENAME_LENGTH ∧
      ((pyStrip3 ((sanitize_filename t).map spaceToUnderscore)).take
          MAX_FILENAME_LENGTH = [] → s = strL "Untitled") := by
  have hmain : convert_topic_to_filename t =
      (if (pyStrip3 ((sanitize_filename t).map spaceToUnderscore)).take
            MAX_FILENAME_LENGTH = []
        then some (strL "Untitled")
        else some ((pyStrip3 ((sanitize_filename t).map spaceToUnderscore)).take
          MAX_FILENAME_LENGTH)) := by
    simp only [convert_topic_to_filename, if_neg h]
  by_cases hm : (pyStrip3 ((sanitize_filename t).map spaceToUnderscore)).take
      MAX_FILENAME_LENGTH = []
  · refine ⟨ strL "Untitled", ?_, by decide, by decide, fun _ => rfl⟩
    rw [hmain, if_pos hm]
  · refine ⟨_, ?_, hm, ?_, fun hc => absurd hc hm⟩
    · rw [hmain, if_neg hm]
    · exact (List.length_take _ _).le.trans (min_le_left _ _)

/-- Witness for the amended claim C4 at the concrete input `"x"`. -/
theorem sanitizer_total_nonempty_bounded_witness :
    ∃ s, convert_topic_to_filename (strL "x") = some s ∧ s ≠ [] ∧
      s.length ≤ MAX_FILENAME_LENGTH ∧
      ((pyStrip3 ((sanitize_filename (strL "x")).map spaceToUnderscore)).take
          MAX_FILENAME_LENGTH = [] → s = strL "Untitled") :=
  sanitizer_total_nonempty_bounded (strL "x") (by decide)

/-! ### Text Extractor (OCR pipeline) -/

/-- Possible behaviour of one PDF page inside the extraction loop of
`perform_ocr_on_pdf`: `rasterFail` models `page.get_pixmap` raising (before
the temporary image file is created), `ocrFail` models the
`Image.open`/`pytesseract.image_to_string` call raising inside the inner
`try`, and `ocrOk t` models OCR succeeding with text `t`. -/
inductive PageSpec where
  | rasterFail : PageSpec
  | ocrFail : PageSpec
  | ocrOk : PyStr → PageSpec
deriving DecidableEq

/-- Whether a page fails rasterization. -/
def PageSpec.isRasterFail : PageSpec → Bool
  | .rasterFail => true
  | _ => false

/-- The OCR text a page contributes on success. -/
def PageSpec.okText : PageSpec → Option PyStr
  | .ocrOk t => some t
  | _ => none

/-- A PDF as seen by `perform_ocr_on_pdf`: whether `fitz.open` succeeds, and
the behaviour of each page. -/
structure Pdf where
  opens : Bool
  pages : List PageSpec
deriving DecidableEq

/-- Outcome of the page loop of `perform_ocr_on_pdf` starting at page index
`i`: the per-page texts appended to `pages` (successful pages only), the
temporary image files recorded in `image_temp_files` (identified by page
index), and whether the loop ran to completion (`ok = false` when a
rasterization failure escaped to the outer `except`). -/
structure PagesRun where
  texts : List PyStr
  recorded : List Nat
  ok : Bool
deriving DecidableEq

/-- The `for page_num in range(doc.page_count)` loop of
`perform_ocr_on_pdf`. A `rasterFail` page raises before its temporary file
exists and aborts the loop; an `ocrFail` page records its temporary file but
appends no text; an `ocrOk` page records its file and appends its text. -/
def runPages : List PageSpec → Nat → PagesRun
  | [], _ => ⟨[], [], true⟩
  | PageSpec.rasterFail :: _, _ => ⟨[], [], false⟩
  | PageSpec.ocrFail :: rest, i =>
      let r := runPages rest (i + 1)
      ⟨r.texts, i :: r.recorded, r.ok⟩
  | PageSpec.ocrOk t :: rest, i =>
      let r := runPages rest (i + 1)
      ⟨t :: r.texts, i :: r.recorded, r.ok⟩

/-- The `finally` block of `perform_ocr_on_pdf`: iterate over the recorded
temporary files and remove each one that still exists from the file system
`fs`. -/
def cleanupFiles (recorded : List Nat) (fs : List Nat) : List Nat :=
  recorded.foldl (fun acc p => if p ∈ acc then acc.erase p else acc) fs

/-- Observable outcome of one call of `perform_ocr_on_pdf`: the returned
value (`none` models Python `None`), the temporary image files created
during the call, and the temporary files still existing after the `finally`
cleanup. -/
structure OcrRun where
  result : Option PyStr
  created : List Nat
  fsAfter : List Nat
deriving DecidableEq

/-- Embedding of `perform_ocr_on_pdf` from `sort_scans.py`. If the PDF fails
to open, the outer `except` returns `None` with no temporary file created.
Otherwise the page loop runs; if it completes, the per-page texts are joined
with `"\n"` and stripped, and if a page raised (rasterization failure) the
outer `except` returns `None`. In both cases the `finally` block deletes
every recorded temporary image file. -/
def perform_ocr_on_pdf (pdf : Pdf) : OcrRun :=
  if pdf.opens then
    let r := runPages pdf.pages 0
    { result := if r.ok then some (pyStripWs (List.intercalate [ '\n'] r.texts)) else none
      created := r.recorded
      fsAfter := cleanupFiles r.recorded r.recorded }
  else
    { result := none, created := [], fsAfter := [] }

example :
    (perform_ocr_on_pdf ⟨true, [PageSpec.ocrOk (strL "Invoice #123\nAcme Corp"),
      PageSpec.ocrOk (strL "")]⟩).result =
      some (strL "Invoice #123\nAcme Corp") := by decide

/-- The temporary files recorded by the page loop are exactly the indices of
the pages processed before the first rasterization failure. -/
theorem runPages_recorded (ps : List PageSpec) (i : Nat) :
    (runPages ps i).recorded =
      List.range' i (ps.takeWhile (fun p => ! p.isRasterFail)).length := by
  induction ps generalizing i with
  | nil => rfl
  | cons p rest ih =>
    cases p with
    | rasterFail => rfl
    | ocrFail => simp [runPages, PageSpec.isRasterFail, List.takeWhile, ih, List.range'_succ]
    | ocrOk t => simp [runPages, PageSpec.isRasterFail, List.takeWhile, ih, List.range'_succ]

/-- If no page fails rasterization, the page loop completes and collects
exactly the texts of the pages whose OCR succeeded, in page order. -/
theorem runPages_no_raster (ps : List PageSpec) (i : Nat)
    (h : ∀ p ∈ ps, p.isRasterFail = false) :
    (runPages ps i).ok = true ∧
      (runPages ps i).texts = ps.filterMap PageSpec.okText := by
  induction ps generalizing i with
  | nil => exact ⟨rfl, rfl⟩
  | cons p rest ih =>
    have hrest : ∀ p ∈ rest, p.isRasterFail = false :=
      fun q hq => h q (List.mem_cons_of_mem p hq)
    cases p with
    | rasterFail => exact absurd (h PageSpec.rasterFail (List.mem_cons_self _ _)) (by decide)
    | ocrFail =>
      exact ⟨(ih (i + 1) hrest).1, by
        simp [runPages, List.filterMap, PageSpec.okText, (ih (i + 1) hrest).2]⟩
    | ocrOk t =>
      exact ⟨(ih (i + 1) hrest).1, by
        simp [runPages, List.filterMap, PageSpec.okText, (ih (i + 1) hrest).2]⟩

/-- If some page fails rasterization, the page loop aborts with an escaped
exception. -/
theorem runPages_raster_aborts (ps : List PageSpec) (i : Nat)
    (h : ∃ p ∈ ps, p.isRasterFail = true) :
    (runPages ps i).ok = false := by
  induction ps generalizing i with
  | nil => obtain ⟨p, hp, _⟩ := h; exact absurd hp (List.not_mem_nil p)
  | cons p rest ih =>
    cases p with
    | rasterFail => rfl
    | ocrFail =>
      obtain ⟨q, hq, hq2⟩ := h
      rcases List.mem_cons.mp hq with h1 | h1
      · rw [h1] at hq2; exact absurd hq2 (by decide)
      · simpa [runPages] using ih (i + 1) ⟨q, h1, hq2⟩
    | ocrOk t =>
      obtain ⟨q, hq, hq2⟩ := h
      rcases List.mem_cons.mp hq with h1 | h1
      · rw [h1] at hq2; simp [PageSpec.isRasterFail] at hq2
      · simpa [runPages] using ih (i + 1) ⟨q, h1, hq2⟩

/-- Deleting, in order, every element of a duplicate-free list of files from
that same list empties the file system: the cleanup loop removes every
temporary file it recorded. -/
theorem cleanupFiles_self (l : List Nat) (h : l.Nodup) :
    cleanupFiles l l = [] := by
  induction l with
  | nil => rfl
  | cons a rest ih =>
    have h1 : cleanupFiles (a :: rest) (a :: rest) = cleanupFiles rest rest := by
      simp only [cleanupFiles, List.foldl_cons, if_pos (List.mem_cons_self a rest),
        List.erase_cons_head]
    rw [h1]
    exact ih (List.Nodup.of_cons h)

/-- Claim C1, counterexample: the claim says every run on an N-page PDF
creates exactly N temporary image files regardless of whether extraction as
a whole succeeds or fails, but on a 2-page PDF whose second page fails
rasterization (`page.get_pixmap` raises before the temporary file is
created) only one temporary image file is created. -/
theorem extractor_temp_count_counterexample :
    (perform_ocr_on_pdf
        ⟨true, [PageSpec.ocrOk (strL "a"), PageSpec.rasterFail]⟩).created.length ≠
      (Pdf.mk true [PageSpec.ocrOk (strL "a"), PageSpec.rasterFail]).pages.length := by
  decide

/-- Claim C1, amended: on every run of the Text Extractor, all temporary
image files created during the run are deleted before it returns, whatever
the failures; and when the PDF opens and no page fails rasterization —
however many pages fail OCR — exactly one temporary image file per page is
created (N files for N pages). -/
theorem extractor_temp_files_cleaned (pdf : Pdf) :
    (perform_ocr_on_pdf pdf).fsAfter = [] ∧
      (pdf.opens = true → (∀ p ∈ pdf.pages, p.isRasterFail = false) →
        (perform_ocr_on_pdf pdf).created.length = pdf.pages.length) := by
  constructor
  · by_cases h : pdf.opens = true
    · have hn : (runPages pdf.pages 0).recorded.Nodup := by
        rw [runPages_recorded]
        exact List.nodup_range' _ _ 1 (by decide)
      simp only [perform_ocr_on_pdf, if_pos h]
      exact cleanupFiles_self _ hn
    · simp [perform_ocr_on_pdf, h]
  · intro h hall
    simp only [perform_ocr_on_pdf, if_pos h]
    rw [runPages_recorded, List.length_range']
    have : pdf.pages.takeWhile (fun p => ! p.isRasterFail) = pdf.pages := by
      refine List.takeWhile_eq_self_iff.mpr fun p hp => ?_
      simp [hall p hp]
    rw [this]

/-- Witness for the amended claim C1: a 2-page PDF where page 2 fails OCR
(K = 1) creates exactly 2 temporary image files and deletes both. -/
theorem extractor_temp_files_cleaned_witness :
    (perform_ocr_on_pdf
        ⟨true, [PageSpec.ocrOk (strL "a"), PageSpec.ocrFail]⟩).fsAfter = [] ∧
      (perform_ocr_on_pdf
          ⟨true, [PageSpec.ocrOk (strL "a"), PageSpec.ocrFail]⟩).created.length =
        (Pdf.mk true [PageSpec.ocrOk (strL "a"), PageSpec.ocrFail]).pages.length :=
  ⟨(extractor_temp_files_cleaned _).1,
    (extractor_temp_files_cleaned _).2 rfl (by decide)⟩

/-- Claim C3, counterexample: the claim says a rasterization failure on page
2 of a 3-page document is page-fatal only, with pages 1 and 3 contributing
text and all three temporary images deleted. In the code the rasterization
call sits outside the per-page `try`, so the exception reaches the outer
handler: extraction returns `None` (no page contributes text) and only one
temporary image was ever created. -/
theorem raster_failure_page_fatal_counterexample :
    (perform_ocr_on_pdf ⟨true, [PageSpec.ocrOk (strL "a"), PageSpec.rasterFail,
        PageSpec.ocrOk (strL "c")]⟩).result = none ∧
      (perform_ocr_on_pdf ⟨true, [PageSpec.ocrOk (strL "a"), PageSpec.rasterFail,
          PageSpec.ocrOk (strL "c")]⟩).created.length ≠ 3 := by
  decide

/-- Claim C3, amended: a rasterization failure for any page of a PDF that
opened is document-fatal for extraction — the Text Extractor returns the
failure signal and no page contributes text — but every temporary image
file created before the failure is still deleted. (Only OCR failures are
page-fatal.) -/
theorem raster_failure_document_fatal (pdf : Pdf)
    (h1 : pdf.opens = true) (h2 : ∃ p ∈ pdf.pages, p.isRasterFail = true) :
    (perform_ocr_on_pdf pdf).result = none ∧
      (perform_ocr_on_pdf pdf).fsAfter = [] := by
  have hok := runPages_raster_aborts pdf.pages 0 h2
  have hn : (runPages pdf.pages 0).recorded.Nodup := by
    rw [runPages_recorded]
    exact List.nodup_range' _ _ 1 (by decide)
  constructor
  · simp [perform_ocr_on_pdf, h1, hok]
  · simp only [perform_ocr_on_pdf, if_pos h1]
    exact cleanupFiles_self _ hn

/-- Witness for the amended claim C3 at the 3-page document whose second
page fails rasterization. -/
theorem raster_failure_document_fatal_witness :
    (perform_ocr_on_pdf ⟨true, [PageSpec.ocrOk (strL "a"), PageSpec.rasterFail,
        PageSpec.ocrOk (strL "c")]⟩).result = none ∧
      (perform_ocr_on_pdf ⟨true, [PageSpec.ocrOk (strL "a"), PageSpec.rasterFail,
          PageSpec.ocrOk (strL "c")]⟩).fsAfter = [] :=
  raster_failure_document_fatal _ rfl (by decide)

/-- Claim C5, counterexample: the claim says a page whose OCR failed
contributes the empty string to the joined sequence, so a 3-page PDF with
texts `"a"`, failure, `"b"` would yield `strip("a\n\nb")`. The code only
appends texts of successful pages (`pages.append` sits inside the inner
`try`), so the failed page is omitted and the result is `"a\nb"`. -/
theorem ocr_failure_contributes_empty_counterexample :
    (perform_ocr_on_pdf ⟨true, [PageSpec.ocrOk (strL "a"), PageSpec.ocrFail,
        PageSpec.ocrOk (strL "b")]⟩).result ≠
      some (pyStripWs (List.intercalate [ '\n'] [ strL "a", [], strL "b"])) := by
  decide

/-- Claim C5, amended: for every PDF that opens successfully and has no
rasterization failure, the Text Extractor returns exactly the OCR texts of
the pages whose OCR succeeded — pages whose OCR failed are omitted from the
sequence, not replaced by empty strings — joined in page order with a
single newline and trimmed of leading and trailing whitespace. -/
theorem extractor_joins_successful_pages (pdf : Pdf)
    (h1 : pdf.opens = true) (h2 : ∀ p ∈ pdf.pages, p.isRasterFail = false) :
    (perform_ocr_on_pdf pdf).result =
      some (pyStripWs (List.intercalate [ '\n']
        (pdf.pages.filterMap PageSpec.okText))) := by
  obtain ⟨hok, htexts⟩ := runPages_no_raster pdf.pages 0 h2
  simp [perform_ocr_on_pdf, h1, hok, htexts]

/-- Witness for the amended claim C5 at a 3-page document whose middle page
fails OCR. -/
theorem extractor_joins_successful_pages_witness :
    (perform_ocr_on_pdf ⟨true, [PageSpec.ocrOk (strL "a"), PageSpec.ocrFail,
        PageSpec.ocrOk (strL "b")]⟩).result =
      some (pyStripWs (List.intercalate [ '\n']
        ((Pdf.mk true [PageSpec.ocrOk (strL "a"), PageSpec.ocrFail,
          PageSpec.ocrOk (strL "b")]).pages.filterMap PageSpec.okText))) :=
  extractor_joins_successful_pages _ rfl (by decide)

/-! ### Topic Inferencer -/

/-- The part of `LLM_PROMPT_TEMPLATE` before the `{text}` placeholder. -/
def promptHead : PyStr :=
  strL "The following text is a text of a letter or invoice obtained via OCR, likely in German or English.\nExtract the sender and the short topic (3-5 words) from it, to use as a file name.\nAvoid including any introductory or concluding remarks like \x27The topic is:\x27 or similar.\n\nTEXT:\n"

/-- The part of `LLM_PROMPT_TEMPLATE` after the `{text}` placeholder. -/
def promptTail : PyStr :=
  strL "\nEND OF TEXT\n\nRemember, your task is to extract the sender and the short topic (3-5 words) from it, to use as a file name.\nRespond ONLY in the format \x22SENDER - TOPIC\x22, without any markup, comments or surrounding text.\n"

/-- `LLM_PROMPT_TEMPLATE.format(text=text)`: the fixed instruction template
with the given text embedded at the `{text}` placeholder. -/
def llmPrompt (text : PyStr) : PyStr :=
  promptHead ++ text ++ promptTail

/-- Behaviour of one `ollama.generate` call: the call can raise
(`raises`), return a response without a usable `response` field
(`malformed`), or return a response whose `response` field is `r`. -/
inductive LlmBehavior where
  | raises : LlmBehavior
  | malformed : LlmBehavior
  | responds : PyStr → LlmBehavior
deriving DecidableEq

/-- Embedding of `get_topic_from_llm` from `sort_scans.py`, instrumented
with the list of prompts actually sent to the inference service. Falsy
(empty) text returns `None` with no call; otherwise the text is truncated
to `MAX_OCR_TEXT_FOR_LLM` characters when longer, embedded in the template,
and sent once; a raised exception or malformed response yields `None`, and
a well-formed response is stripped of surrounding whitespace and returned. -/
def get_topic_from_llm (llm : LlmBehavior) (text : PyStr) :
    Option PyStr × List PyStr :=
  if text = [] then (none, [])
  else
    let t := if MAX_OCR_TEXT_FOR_LLM < text.length
      then text.take MAX_OCR_TEXT_FOR_LLM else text
    let prompt := llmPrompt t
    match llm with
    | LlmBehavior.raises => (none, [prompt])
    | LlmBehavior.malformed => (none, [prompt])
    | LlmBehavior.responds r => (some (pyStripWs r), [prompt])

example :
    (get_topic_from_llm (LlmBehavior.responds (strL " Acme - Invoice \n"))
      (strL "hello")).1 = some (strL "Acme - Invoice") := by decide

/-- Claim C7, confirmed: when the extracted text is longer than the
truncation budget `MAX_OCR_TEXT_FOR_LLM` (4000), the single prompt sent to
the inference service embeds exactly the first 4000 characters of the text;
non-empty text of length at most 4000 is embedded unaltered. -/
theorem llm_truncates_to_budget (llm : LlmBehavior) (text : PyStr) :
    (MAX_OCR_TEXT_FOR_LLM < text.length →
      (get_topic_from_llm llm text).2 =
        [llmPrompt (text.take MAX_OCR_TEXT_FOR_LLM)]) ∧
    (text ≠ [] → text.length ≤ MAX_OCR_TEXT_FOR_LLM →
      (get_topic_from_llm llm text).2 = [llmPrompt text]) := by
  constructor
  · intro hlen
    have hne : ¬ text = [] := by
      intro h
      rw [h] at hlen
      simp [MAX_OCR_TEXT_FOR_LLM] at hlen
    cases llm <;> simp [get_topic_from_llm, hne, hlen]
  · intro hne hlen
    have hnlt : ¬ (MAX_OCR_TEXT_FOR_LLM < text.length) := not_lt.mpr hlen
    cases llm <;> simp [get_topic_from_llm, hne, hnlt]

/-- Witness for claim C7: a 4001-character text is sent as its first 4000
characters, and a short text is sent unaltered. -/
theorem llm_truncates_to_budget_witness :
    (get_topic_from_llm (LlmBehavior.responds (strL "S - T"))
        (List.replicate 4001 'a')).2 =
      [llmPrompt ((List.replicate 4001 'a').take MAX_OCR_TEXT_FOR_LLM)] ∧
    (get_topic_from_llm (LlmBehavior.responds (strL "S - T"))
        (strL "short text")).2 = [llmPrompt (strL "short text")] :=
  ⟨(llm_truncates_to_budget (LlmBehavior.responds (strL "S - T"))
      (List.replicate 4001 'a')).1 (by norm_num [MAX_OCR_TEXT_FOR_LLM]),
    (llm_truncates_to_budget (LlmBehavior.responds (strL "S - T"))
      (strL "short text")).2 (by decide) (by decide)⟩

/-- Claim C8, confirmed: on empty extracted text the Topic Inferencer
returns the no-topic result (`None`) immediately and the list of prompts
sent to the inference service is empty — the service is never invoked. -/
theorem llm_empty_text_short_circuits (llm : LlmBehavior) :
    get_topic_from_llm llm [] = (none, []) := rfl

/-! ### Document Processor (orchestration in `main`) -/

/-- Helper for the `os.path.splitext` model: the part of the path after the
last `/` separator (the whole path when there is no separator). -/
def afterLastSep (name : PyStr) : PyStr :=
  (name.reverse.takeWhile (fun c => c ≠ '/')).reverse

/-- Helper for the `os.path.splitext` model: the suffix of `l` starting at
its last `.`, or `[]` when `l` has no dot. -/
def suffixFromLastDot : PyStr → PyStr
  | [] => []
  | c :: rest =>
    let r := suffixFromLastDot rest
    if r = [] then (if c = '.' then c :: rest else []) else r

/-- Model of the extension component of `os.path.splitext` from the Python
standard library (POSIX flavour, separator `/`): within the last path
component, leading dots are skipped, and the extension is the suffix from
the last remaining dot; a component with no dot after its leading dots (for
example a dotfile such as `.bashrc`) has no extension. -/
def splitextExt (name : PyStr) : PyStr :=
  let comp := afterLastSep name
  suffixFromLastDot (comp.drop ((comp.takeWhile (fun c => c = '.')).length))

example : splitextExt (strL "scan.pdf") = strL ".pdf" := by decide
example : splitextExt (strL "archive.tar.gz") = strL ".gz" := by decide
example : splitextExt (strL ".bashrc") = [] := by decide
example : splitextExt (strL "noext") = [] := by decide
example : splitextExt (strL "dir.d/noext") = [] := by decide

/-- One document reference as processed by the loop in `main`, together
with the behaviour of the external services while processing it: the
original display name, the result of the download (`none` models the
download raising), the behaviour of the inference service, and whether the
Drive rename request raises. -/
structure DocSpec where
  name : PyStr
  download : Option Pdf
  llm : LlmBehavior
  renameFails : Bool
deriving DecidableEq

/-- How processing of one document ended. -/
inductive DocOutcome where
  | errored : DocOutcome
  | noText : DocOutcome
  | noTopic : DocOutcome
  | emptyBase : DocOutcome
  | sameName : DocOutcome
  | renameFailed : DocOutcome
  | renamed : DocOutcome
deriving DecidableEq

/-- Observable result of processing one document: its outcome and the
rename requests issued to the Drive service (the requested new names). -/
structure DocResult where
  outcome : DocOutcome
  renameCalls : List PyStr
deriving DecidableEq

/-- The body of the per-document `try` block in `main`: download, extract,
infer, sanitize, build the new name, and request the rename. A download
failure raises (`Except.error`); every guard (`if not ocr_text`,
`if not topic`, `if not new_name_base`, `if new_name == original_name`)
skips to the next document; the rename request's own failure is caught by
the inner `try`/`except` around `drive_service.files().update`. -/
def process_doc_steps (d : DocSpec) : Except Unit DocResult :=
  match d.download with
  | none => Except.error ()
  | some pdf =>
    match (perform_ocr_on_pdf pdf).result with
    | none => Except.ok ⟨DocOutcome.noText, []⟩
    | some t =>
      if t = [] then Except.ok ⟨DocOutcome.noText, []⟩
      else
        match (get_topic_from_llm d.llm t).1 with
        | none => Except.ok ⟨DocOutcome.noTopic, []⟩
        | some topic =>
          if topic = [] then Except.ok ⟨DocOutcome.noTopic, []⟩
          else
            match convert_topic_to_filename topic with
            | none => Except.ok ⟨DocOutcome.emptyBase, []⟩
            | some base =>
              if base = [] then Except.ok ⟨DocOutcome.emptyBase, []⟩
              else
                let newName := base ++ splitextExt d.name
                if newName = d.name then Except.ok ⟨DocOutcome.sameName, []⟩
                else if d.renameFails
                  then Except.ok ⟨DocOutcome.renameFailed, [newName]⟩
                  else Except.ok ⟨DocOutcome.renamed, [newName]⟩

/-- Processing of one document with the surrounding catch-all
`try`/`except` of `main`: any failure raised inside the document's
processing is absorbed at the document boundary. -/
def process_doc (d : DocSpec) : DocResult :=
  match process_doc_steps d with
  | Except.ok r => r
  | Except.error _ => ⟨DocOutcome.errored, []⟩

/-- The `for item in items` loop of `main`: each document in the listed
order is processed through `process_doc`. -/
def main_loop (docs : List DocSpec) : List DocResult :=
  docs.map process_doc

/-- Claim C2, confirmed: the document loop produces one result per listed
document, the result of each position depends only on that position's
document (so a failure — including a rename failure — while processing one
document never affects the processing of the documents after it), and any
failure raised inside one document's processing is absorbed at the document
boundary into an `errored` result instead of terminating the run. -/
theorem per_document_isolation (docs : List DocSpec) :
    ((main_loop docs).length = docs.length ∧
      ∀ i : Nat, (main_loop docs)[i]? = Option.map process_doc docs[i]?) ∧
    ∀ d : DocSpec, process_doc_steps d = Except.error () →
      process_doc d = ⟨DocOutcome.errored, []⟩ := by
  refine ⟨⟨List.length_map .., fun i => ?_⟩, fun d hd => ?_⟩
  · simp [main_loop, List.getElem?_map]
  · simp [process_doc, hd]

/-- A document whose download raises, for the claim C2 witness. -/
def docFailing : DocSpec :=
  ⟨ strL "a.pdf", none, LlmBehavior.raises, true⟩

/-- A document that processes normally, for the claim C2 witness. -/
def docHealthy : DocSpec :=
  ⟨ strL "b.pdf", some ⟨true, [PageSpec.ocrOk (strL "hello")]⟩,
    LlmBehavior.responds (strL "Acme - Invoice"), false⟩

/-- Witness for claim C2: in a two-document run whose first document fails,
the first document's failure is absorbed into an `errored` result and the
second document is still processed. -/
theorem per_document_isolation_witness :
    (main_loop [docFailing, docHealthy])[1]? =
        Option.map process_doc [docFailing, docHealthy][1]? ∧
      process_doc docFailing = ⟨DocOutcome.errored, []⟩ :=
  ⟨(per_document_isolation [docFailing, docHealthy]).1.2 1,
    (per_document_isolation [docFailing, docHealthy]).2 docFailing rfl⟩

/-- Claim C9, confirmed: when a document's pipeline reaches the naming step
and the candidate new name (sanitized base plus extension of the original
name) equals the original name, `main` issues no rename request and the
document ends in the `sameName` outcome — the loop simply continues. -/
theorem same_name_skips_rename (d : DocSpec) (pdf : Pdf) (t topic base : PyStr)
    (hdl : d.download = some pdf)
    (hocr : (perform_ocr_on_pdf pdf).result = some t) (ht : t ≠ [])
    (htopic : (get_topic_from_llm d.llm t).1 = some topic) (htopic2 : topic ≠ [])
    (hbase : convert_topic_to_filename topic = some base) (hbase2 : base ≠ [])
    (heq : base ++ splitextExt d.name = d.name) :
    process_doc d = ⟨DocOutcome.sameName, []⟩ := by
  simp [process_doc, process_doc_steps, hdl, hocr, ht, htopic, htopic2, hbase,
    hbase2, heq]

/-- A document whose inferred, sanitized candidate name coincides with its
original name, for the claim C9 witness. -/
def docAlreadyNamed : DocSpec :=
  ⟨ strL "Doc.pdf", some ⟨true, [PageSpec.ocrOk (strL "hello")]⟩,
    LlmBehavior.responds (strL "Doc"), false⟩

/-- Witness for claim C9 at a document named `"Doc.pdf"` whose inferred
topic sanitizes to `"Doc"`: no rename request is recorded. -/
theorem same_name_skips_rename_witness :
    process_doc docAlreadyNamed = ⟨DocOutcome.sameName, []⟩ :=
  same_name_skips_rename docAlreadyNamed
    ⟨true, [PageSpec.ocrOk (strL "hello")]⟩ (strL "hello") (strL "Doc")
    (strL "Doc") rfl (by decide) (by decide) (by decide) (by decide)
    (by decide) (by decide) (by decide)

/-! ### The extension rule (claim C10) -/

/-- Claim-side definition following the words of claim C10: the extension
of a file name is obtained by splitting the name at its last dot, the dot
included; a name with no dot at all has no extension. -/
def ext_by_last_dot (name : PyStr) : PyStr :=
  let tailAfter := name.reverse.takeWhile (fun c => c ≠ '.')
  if tailAfter.length = name.length then [] else '.' :: tailAfter.reverse

/-- A list without a dot has no last-dot suffix. -/
theorem suffixFromLastDot_of_no_dot (l : PyStr) (h : '.' ∉ l) :
    suffixFromLastDot l = [] := by
  induction l with
  | nil => rfl
  | cons c rest ih =>
    have hc : ¬ c = '.' := fun hc => h (hc ▸ List.mem_cons_self c rest)
    have hr : '.' ∉ rest := fun hm => h (List.mem_cons_of_mem c hm)
    simp [suffixFromLastDot, ih hr, hc]

/-- The last-dot suffix of a list that decomposes at its last dot. -/
theorem suffixFromLastDot_last (a b : PyStr) (h : '.' ∉ b) :
    suffixFromLastDot (a ++ '.' :: b) = '.' :: b := by
  induction a with
  | nil => simp [suffixFromLastDot, suffixFromLastDot_of_no_dot b h]
  | cons c a ih => simp [suffixFromLastDot, ih]

/-- Every list containing a dot splits at its last dot. -/
theorem exists_last_dot (l : PyStr) (h : '.' ∈ l) :
    ∃ a b, l = a ++ '.' :: b ∧ '.' ∉ b := by
  induction l with
  | nil => exact absurd h (List.not_mem_nil '.')
  | cons c rest ih =>
    by_cases hr : '.' ∈ rest
    · obtain ⟨a, b, hab, hb⟩ := ih hr
      exact ⟨c :: a, b, by rw [hab]; rfl, hb⟩
    · have hc : c = '.' := by
        rcases List.mem_cons.mp h with h1 | h1
        · exact h1.symm
        · exact absurd h1 hr
      exact ⟨[], rest, by simp [hc], hr⟩

/-- Taking while a predicate holds stops exactly at the first violation. -/
theorem takeWhile_append_stop {p : Char → Bool} (u : PyStr) (c : Char)
    (v : PyStr) (hu : ∀ x ∈ u, p x = true) (hc : p c = false) :
    (u ++ c :: v).takeWhile p = u := by
  induction u with
  | nil => simp [List.takeWhile_cons, hc]
  | cons a u ih =>
    have ha : p a = true := hu a (List.mem_cons_self a u)
    simp [List.takeWhile_cons, ha,
      ih (fun x hx => hu x (List.mem_cons_of_mem a hx))]

/-- Dropping the length of the taken prefix is the same as dropping while
the predicate holds. -/
theorem drop_length_takeWhile (p : Char → Bool) (l : PyStr) :
    l.drop ((l.takeWhile p).length) = l.dropWhile p := by
  induction l with
  | nil => rfl
  | cons c rest ih =>
    by_cases hc : p c
    · simp [List.takeWhile_cons, List.dropWhile_cons, hc, ih]
    · simp [List.takeWhile_cons, List.dropWhile_cons, hc]

/-- Claim C10, counterexample: for the original name `".pdf"` the claim's
split-at-last-dot rule yields the extension `".pdf"`, so the candidate name
for sanitized base `"Doc"` would be `"Doc.pdf"`; but `os.path.splitext`
treats a leading-dot name as having no extension, so the code requests the
rename `"Doc"` instead. -/
theorem extension_rule_counterexample :
    ext_by_last_dot (strL ".pdf") = strL ".pdf" ∧
      (process_doc ⟨ strL ".pdf",
          some ⟨true, [PageSpec.ocrOk (strL "hello")]⟩,
          LlmBehavior.responds (strL "Doc"), false⟩).renameCalls =
        [ strL "Doc"] ∧
      (process_doc ⟨ strL ".pdf",
          some ⟨true, [PageSpec.ocrOk (strL "hello")]⟩,
          LlmBehavior.responds (strL "Doc"), false⟩).renameCalls ≠
        [ strL "Doc" ++ ext_by_last_dot (strL ".pdf")] := by
  refine ⟨by decide, by decide, by decide⟩

/-- Claim C10, amended: the candidate new name appends to the sanitized
base the extension of the original name as computed by `os.path.splitext`:
the suffix from the last dot (dot included) provided some non-dot character
precedes that dot in the name's last path component; a name whose only dots
are leading dots of that component (for example a dotfile) or that has no
dot gets no extension, and the candidate is then the base alone. -/
theorem extension_rule_amended :
    (∀ name : PyStr, '/' ∉ name →
      splitextExt name =
        if (name.dropWhile (fun c => c = '.')).any (fun c => c = '.')
          then ext_by_last_dot name else []) ∧
    (∀ (d : DocSpec) (pdf : Pdf) (t topic base : PyStr),
      d.download = some pdf →
      (perform_ocr_on_pdf pdf).result = some t → t ≠ [] →
      (get_topic_from_llm d.llm t).1 = some topic → topic ≠ [] →
      convert_topic_to_filename topic = some base → base ≠ [] →
      base ++ splitextExt d.name ≠ d.name → d.renameFails = false →
      (process_doc d).renameCalls = [base ++ splitextExt d.name]) := by
  constructor
  · intro name h
    have hcomp : afterLastSep name = name := by
      unfold afterLastSep
      have hall : name.reverse.takeWhile (fun c => c ≠ '/') = name.reverse := by
        refine List.takeWhile_eq_self_iff.mpr fun c hc => ?_
        have hcne : c ≠ '/' := by
          intro hcc
          exact h (hcc ▸ List.mem_reverse.mp hc)
        simp [hcne]
      rw [hall, List.reverse_reverse]
    have hsplit : splitextExt name =
        suffixFromLastDot (name.dropWhile (fun c => c = '.')) := by
      simp only [splitextExt, hcomp]
      rw [drop_length_takeWhile]
    by_cases hdot : '.' ∈ name.dropWhile (fun c => c = '.')
    · obtain ⟨a, b, hab, hb⟩ := exists_last_dot _ hdot
      have hcond : ((name.dropWhile (fun c => c = '.')).any
          (fun c => c = '.')) = true :=
        List.any_eq_true.mpr ⟨'.', hdot, by simp⟩
      have h0 : name.takeWhile (fun c => c = '.') ++ (a ++ '.' :: b) = name := by
        rw [← hab]
        exact List.takeWhile_append_dropWhile _ _
      have hname : name = (name.takeWhile (fun c => c = '.') ++ a) ++ '.' :: b := by
        rw [List.append_assoc, h0]
      have hrev : name.reverse =
          b.reverse ++ '.' :: ((name.takeWhile (fun c => c = '.') ++ a)).reverse := by
        conv_lhs => rw [hname]
        simp [List.reverse_append]
      have htake : name.reverse.takeWhile (fun c => c ≠ '.') = b.reverse := by
        rw [hrev]
        refine takeWhile_append_stop _ _ _ (fun x hx => ?_) (by simp)
        have hxb : x ∈ b := List.mem_reverse.mp hx
        have hxne : x ≠ '.' := fun hxx => hb (hxx ▸ hxb)
        simp [hxne]
      have hlenlt : b.reverse.length < name.length := by
        conv_rhs => rw [hname]
        simp only [List.length_append, List.length_reverse, List.length_cons]
        omega
      have hext : ext_by_last_dot name = '.' :: b := by
        simp only [ext_by_last_dot]
        rw [htake, if_neg (Nat.ne_of_lt hlenlt), List.reverse_reverse]
      rw [hsplit, if_pos hcond, hext, hab]
      exact suffixFromLastDot_last a b hb
    · have hcond : ¬ (((name.dropWhile (fun c => c = '.')).any
          (fun c => c = '.')) = true) := by
        simp only [List.any_eq_true, not_exists]
        intro x hx
        exact hdot ((by simpa using hx.2 : x = '.') ▸ hx.1)
      rw [hsplit, if_neg hcond, suffixFromLastDot_of_no_dot _ hdot]
  · intro d pdf t topic base hdl hocr ht htopic htopic2 hbase hbase2 hne hrn
    simp [process_doc, process_doc_steps, hdl, hocr, ht, htopic, htopic2,
      hbase, hbase2, hne, hrn]

/-- Witness for the amended claim C10: the extension rule at `"a.pdf"`, and
the candidate-name construction for a document named `"x.pdf"` whose topic
sanitizes to `"Doc"`. -/
theorem extension_rule_amended_witness :
    (splitextExt (strL "a.pdf") =
      if ((strL "a.pdf").dropWhile (fun c => c = '.')).any (fun c => c = '.')
        then ext_by_last_dot (strL "a.pdf") else []) ∧
    (process_doc ⟨ strL "x.pdf",
        some ⟨true, [PageSpec.ocrOk (strL "hello")]⟩,
        LlmBehavior.responds (strL "Doc"), false⟩).renameCalls =
      [ strL "Doc" ++ splitextExt (strL "x.pdf")] :=
  ⟨extension_rule_amended.1 (strL "a.pdf") (by decide),
    extension_rule_amended.2 ⟨ strL "x.pdf",
        some ⟨true, [PageSpec.ocrOk (strL "hello")]⟩,
        LlmBehavior.responds (strL "Doc"), false⟩
      ⟨true, [PageSpec.ocrOk (strL "hello")]⟩ (strL "hello") (strL "Doc")
      (strL "Doc") rfl (by decide) (by decide) (by decide) (by decide)
      (by decide) (by decide) (by decide) rfl⟩

/-! ### Idempotence of the Filename Sanitizer (claim C6) -/

/-- The head surviving a `dropWhile` falsifies the predicate. -/
theorem dropWhile_head_false {p : Char → Bool} {l : PyStr} {c : Char}
    {t : PyStr} (h : l.dropWhile p = c :: t) : p c = false := by
  induction l with
  | nil => simp at h
  | cons a rest ih =>
    rw [List.dropWhile_cons] at h
    by_cases ha : p a
    · rw [if_pos ha] at h
      exact ih h
    · rw [if_neg ha] at h
      injection h with h1 h2
      rw [← h1]
      exact Bool.eq_false_iff.mpr ha

/-- Stripping at both ends yields a sublist. -/
theorem pyStrip3_sublist (l : PyStr) : List.Sublist (pyStrip3 l) l := by
  have a1 : List.Sublist (l.dropWhile isStripChar) l := List.dropWhile_sublist _
  have a2 : List.Sublist ((l.dropWhile isStripChar).reverse.dropWhile isStripChar)
      (l.dropWhile isStripChar).reverse := List.dropWhile_sublist _
  have a3 := a2.reverse
  rw [List.reverse_reverse] at a3
  exact a3.trans a1

/-- The left-stripped list decomposes as the fully stripped list followed by
the stripped tail. -/
theorem pyStrip3_decomp (l : PyStr) :
    ∃ u, l.dropWhile isStripChar = pyStrip3 l ++ u := by
  refine ⟨((l.dropWhile isStripChar).reverse.takeWhile isStripChar).reverse, ?_⟩
  conv_lhs => rw [← List.reverse_reverse (l.dropWhile isStripChar)]
  conv_lhs => rw [← List.takeWhile_append_dropWhile isStripChar
    (l.dropWhile isStripChar).reverse]
  rw [List.reverse_append]
  rfl

/-- A list whose first and last characters are not strip characters is left
unchanged by the two-sided strip. -/
theorem pyStrip3_eq_self {s : PyStr}
    (hh : ∀ c, s.head? = some c → isStripChar c = false)
    (hl : ∀ c, s.getLast? = some c → isStripChar c = false) :
    pyStrip3 s = s := by
  cases s with
  | nil => rfl
  | cons c t =>
    have hc : isStripChar c = false := hh c rfl
    have hdrop : (c :: t).dropWhile isStripChar = c :: t := by
      rw [List.dropWhile_cons, if_neg (by simp [hc])]
    rw [pyStrip3, hdrop]
    cases hrev : (c :: t).reverse with
    | nil => simp at hrev
    | cons d u =>
      have hd : (c :: t).getLast? = some d := by
        rw [← List.head?_reverse, hrev]
        rfl
      have hdf : isStripChar d = false := hl d hd
      have hdrop2 : (d :: u).dropWhile isStripChar = d :: u := by
        rw [List.dropWhile_cons, if_neg (by simp [hdf])]
      rw [hdrop2, ← hrev, List.reverse_reverse]

/-- Claim C6, counterexample: the sanitizer is not idempotent. For an input
of 149 `a`s, a space and a `b`, sanitization yields 149 `a`s followed by an
underscore — the length-150 truncation happens after the edge strip and
cuts just before the `b`, leaving a trailing underscore — and resanitizing
that output strips the underscore, giving a different (149-character)
name. -/
theorem sanitizer_idempotence_counterexample :
    convert_topic_to_filename (List.replicate 149 'a' ++ [' ', 'b']) =
      some (List.replicate 149 'a' ++ ['_']) ∧
    convert_topic_to_filename (List.replicate 149 'a' ++ ['_']) ≠
      some (List.replicate 149 'a' ++ ['_']) := by
  refine ⟨by decide, by decide⟩

/-- Claim C6, amended: the Filename Sanitizer is idempotent on every output
that does not end in an underscore or hyphen — in particular whenever the
length-150 truncation did not cut the name just after one. Only when
truncation leaves a trailing underscore or hyphen does a second application
strip it and return a shorter name. -/
theorem sanitizer_idempotent_unless_truncation_exposes (t s : PyStr)
    (h : convert_topic_to_filename t = some s)
    (h2 : s.getLast? ≠ some '_') (h3 : s.getLast? ≠ some '-') :
    convert_topic_to_filename s = some s := by
  by_cases ht : t = []
  · rw [ht] at h
    exact absurd h (by simp [convert_topic_to_filename])
  · simp only [convert_topic_to_filename, if_neg ht] at h
    by_cases hs4 : (pyStrip3 ((sanitize_filename t).map spaceToUnderscore)).take
        MAX_FILENAME_LENGTH = []
    · rw [if_pos hs4] at h
      obtain rfl : strL "Untitled" = s := Option.some.inj h
      decide
    · rw [if_neg hs4] at h
      obtain rfl : (pyStrip3 ((sanitize_filename t).map spaceToUnderscore)).take
          MAX_FILENAME_LENGTH = s := Option.some.inj h
      set s2 := (sanitize_filename t).map spaceToUnderscore with hs2def
      set s3 := pyStrip3 s2 with hs3def
      set s := s3.take MAX_FILENAME_LENGTH with hsdef
      have hsub : List.Sublist s s2 :=
        (List.take_sublist _ _).trans (pyStrip3_sublist s2)
      have hs2chars : ∀ x ∈ s2, isInvalidFilenameChar x = false ∧ x ≠ ' ' := by
        intro x hx
        obtain ⟨c, hc, rfl⟩ := List.mem_map.mp hx
        have hcf : c ∈ t.filter (fun c => !(isInvalidFilenameChar c)) :=
          (List.take_sublist _ _).subset hc
        have hcv : isInvalidFilenameChar c = false := by
          have := List.of_mem_filter hcf
          simpa using this
        by_cases hcs : c = ' '
        · subst hcs
          refine ⟨by decide, by decide⟩
        · rw [spaceToUnderscore, if_neg hcs]
          exact ⟨hcv, hcs⟩
      have hschars : ∀ x ∈ s, isInvalidFilenameChar x = false ∧ x ≠ ' ' :=
        fun x hx => hs2chars x (hsub.subset hx)
      have hslen : s.length ≤ MAX_FILENAME_LENGTH := by
        rw [hsdef]
        exact (List.length_take _ _).le.trans (min_le_left _ _)
      have hsan : sanitize_filename s = s := by
        rw [sanitize_filename]
        rw [List.filter_eq_self.mpr (fun a ha => by simp [(hschars a ha).1])]
        exact List.take_of_length_le (hslen.trans (by decide))
      have hmap : s.map spaceToUnderscore = s := by
        have hcg : ∀ a ∈ s, spaceToUnderscore a = id a := by
          intro a ha
          rw [spaceToUnderscore, if_neg (hschars a ha).2]
          rfl
        have := List.map_congr_left hcg
        simpa using this
      have hstrip : pyStrip3 s = s := by
        refine pyStrip3_eq_self (fun c hc => ?_) (fun c hc => ?_)
        · obtain ⟨u, hu⟩ := pyStrip3_decomp s2
          rw [← hs3def] at hu
          cases hs3 : s3 with
          | nil =>
            rw [hsdef, hs3] at hc
            simp at hc
          | cons c3 r3 =>
            have hc3 : isStripChar c3 = false := by
              rw [hs3] at hu
              exact dropWhile_head_false hu
            have : s.head? = some c3 := by
              rw [hsdef, hs3, MAX_FILENAME_LENGTH, List.take_succ_cons]
              rfl
            rw [this] at hc
            injection hc with hcc
            rw [← hcc]
            exact hc3
        · have hcm : c ∈ s := by
            rw [← List.head?_reverse] at hc
            exact List.mem_reverse.mp (List.mem_of_mem_head? (by rw [hc]; rfl))
          have hcn : c ≠ ' ' := (hschars c hcm).2
          have hcu : c ≠ '_' := fun hcc => h2 (hcc ▸ hc)
          have hch : c ≠ '-' := fun hcc => h3 (hcc ▸ hc)
          simp [isStripChar, hcn, hcu, hch]
      have htake : s.take MAX_FILENAME_LENGTH = s :=
        List.take_of_length_le hslen
      have hsne : ¬ s = [] := hs4
      simp only [convert_topic_to_filename, if_neg hsne]
      rw [hsan, hmap, hstrip, htake, if_neg hsne]

/-- Witness for the amended claim C6: the output `"Doc_x"` of sanitizing
`"Doc x"` does not end in an underscore or hyphen, and resanitizing it
yields it unchanged. -/
theorem sanitizer_idempotent_witness :
    convert_topic_to_filename (strL "Doc_x") = some (strL "Doc_x") :=
  sanitizer_idempotent_unless_truncation_exposes (strL "Doc x") (strL "Doc_x")
    (by decide) (by decide) (by decide)

end SortScans
